import Mathlib

/-!
Verification of the tabletop signaling relay server (`src/server.js`).

The server keeps a process-wide map from room name to room state; each room
holds the host connection, a map from peer id to client connection, an
optional password and a `next_peer_id` counter.  Connections carry mutable
session fields (current room, host flag, peer id).  We embed the handlers
`handleCreateRoom`, `handleJoinRoom`, `handleSignal` and `cleanupConnection`
as pure functions from a global state to a new state plus a list of outbound
effects (envelope sends and transport closes), mirroring the JavaScript
line by line.  JavaScript `Map`s become association lists whose `set`
replaces in place or appends at the end, reproducing insertion-order
iteration; `password || null` and the truthiness tests are modelled
explicitly.
-/

namespace TabletopSignaling

/-- Opaque identity of one transport connection. -/
abbrev ConnId := Nat

/-- Per-connection session fields stored on the websocket in `server.js`
(`currentRoom`, `isHost`, `peerId`), initialised to `(null, false, 0)`. -/
structure Sess where
  room : Option String
  isHost : Bool
  peerId : Nat
  deriving DecidableEq, Repr

/-- One room: `{ host, clients, password, next_peer_id }` from `server.js`. -/
structure Room where
  host : ConnId
  clients : List (Nat × ConnId)
  password : Option String
  next_peer_id : Nat
  deriving DecidableEq, Repr

/-- Global server state: the `rooms` map plus every connection's session. -/
structure St where
  rooms : List (String × Room)
  sess : ConnId → Sess

/-- Outbound message envelopes (the JSON objects `ws.send` serialises). -/
inductive OutMsg where
  | error (message : String)
  | room_created (room_name : String) (peer_id : Nat)
  | room_joined (room_name : String) (peer_id : Nat) (existing_peers : List Nat)
  | peer_joined (peer_id : Nat)
  | signal (data : String) (from_peer_id : Nat)
  | host_disconnected
  | peer_left (peer_id : Nat)
  deriving DecidableEq, Repr

/-- Outbound effects: sending an envelope to a connection, or closing a
connection's transport (`client.close()`). -/
inductive Eff where
  | send (dst : ConnId) (msg : OutMsg)
  | close (conn : ConnId)
  deriving DecidableEq, Repr

/-- `Map.get` / `Map.has`: first value stored under the key. -/
def lookupA {α β : Type} [DecidableEq α] (k : α) : List (α × β) → Option β
  | [] => none
  | (k', v) :: rest => if k' = k then some v else lookupA k rest

/-- `Map.set`: replace the value in place when the key exists, else append
at the end (JavaScript `Map` preserves insertion order). -/
def setA {α β : Type} [DecidableEq α] (k : α) (v : β) : List (α × β) → List (α × β)
  | [] => [(k, v)]
  | (k', v') :: rest => if k' = k then (k, v) :: rest else (k', v') :: setA k v rest

/-- `Map.delete`: remove every entry stored under the key. -/
def delA {α β : Type} [DecidableEq α] (k : α) : List (α × β) → List (α × β)
  | [] => []
  | (k', v) :: rest => if k' = k then delA k rest else (k', v) :: delA k rest

/-- JavaScript `password || null`: `undefined` and the empty string both
collapse to `null`. -/
def jsOrNull : Option String → Option String
  | none => none
  | some s => if s = "" then none else some s

/-- The join-time password test `room.password && room.password !== password`:
true exactly when the check fails and the join is rejected. -/
def pwCheckFails (stored supplied : Option String) : Bool :=
  match stored with
  | none => false
  | some s => decide (s ≠ "") && decide (supplied ≠ some s)

/-- Update one connection's session fields. -/
def updSess (f : ConnId → Sess) (c : ConnId) (s : Sess) : ConnId → Sess :=
  fun c' => if c' = c then s else f c'

/-- Session of a fresh connection: no room, not host, peer id 0. -/
def initSess : Sess := ⟨none, false, 0⟩

/-- Server state at process start: no rooms, every session fresh. -/
def initSt : St := ⟨[], fun _ => initSess⟩

/-- `handleCreateRoom(ws, message)` from `server.js`. -/
def handleCreateRoom (st : St) (c : ConnId) (room_name : String)
    (password : Option String) : St × List Eff :=
  if (lookupA room_name st.rooms).isSome then
    (st, [.send c (.error "Room already exists")])
  else
    let room : Room := ⟨c, [], jsOrNull password, 2⟩
    ({ rooms := (room_name, room) :: st.rooms,
       sess := updSess st.sess c ⟨some room_name, true, 1⟩ },
     [.send c (.room_created room_name 1)])

/-- `handleJoinRoom(ws, message)` from `server.js`. -/
def handleJoinRoom (st : St) (c : ConnId) (room_name : String)
    (password : Option String) : St × List Eff :=
  match lookupA room_name st.rooms with
  | none => (st, [.send c (.error "Room not found")])
  | some room =>
    if pwCheckFails room.password password then
      (st, [.send c (.error "Wrong password")])
    else if 4 ≤ room.clients.length then
      (st, [.send c (.error "Room is full (max 5 players)")])
    else
      let peer_id := room.next_peer_id
      let clients' := setA peer_id c room.clients
      let room' : Room := { room with clients := clients', next_peer_id := peer_id + 1 }
      let existing_peer_ids := (clients'.map Prod.fst).filter (fun id => decide (id ≠ peer_id))
      ({ rooms := setA room_name room' st.rooms,
         sess := updSess st.sess c ⟨some room_name, false, peer_id⟩ },
       .send c (.room_joined room_name peer_id existing_peer_ids) ::
       .send room.host (.peer_joined peer_id) ::
       clients'.filterMap (fun p =>
         if p.1 ≠ peer_id then some (.send p.2 (.peer_joined peer_id)) else none))

/-- `handleSignal(ws, message)` from `server.js`; `target` models the
possibly-absent `message.target_peer_id`, with JavaScript truthiness
(`0` counts as absent).  The guard `!room_name || !rooms.has(room_name)`
drops the signal both when no room is set and when the room name is the
falsy empty string. -/
def handleSignal (st : St) (c : ConnId) (data : String)
    (target : Option Nat) : St × List Eff :=
  match (st.sess c).room with
  | none => (st, [])
  | some room_name =>
    if room_name = "" then (st, [])
    else
    match lookupA room_name st.rooms with
    | none => (st, [])
    | some room =>
      if (st.sess c).isHost then
        match target with
        | some tp =>
          if tp = 0 then
            (st, room.clients.map (fun p => .send p.2 (.signal data 1)))
          else
            match lookupA tp room.clients with
            | some cw => (st, [.send cw (.signal data 1)])
            | none => (st, [])
        | none => (st, room.clients.map (fun p => .send p.2 (.signal data 1)))
      else
        (st, [.send room.host (.signal data (st.sess c).peerId)])

/-- `cleanupConnection(room_name, ws, isHost, peer_id)` from `server.js`. -/
def cleanupConnection (st : St) (room_name : String) (c : ConnId)
    (isHost : Bool) (peer_id : Nat) : St × List Eff :=
  match lookupA room_name st.rooms with
  | none => (st, [])
  | some room =>
    if isHost then
      ({ st with rooms := delA room_name st.rooms },
       room.clients.flatMap (fun p => [.send p.2 .host_disconnected, .close p.2]))
    else
      let room' : Room := { room with clients := delA peer_id room.clients }
      ({ st with rooms := setA room_name room' st.rooms },
       .send room.host (.peer_left peer_id) ::
       room'.clients.map (fun p => .send p.2 (.peer_left peer_id)))

/-- External events driving the server: the three message kinds dispatched
by the `message` handler, plus a transport close, which runs
`cleanupConnection` with the connection's session exactly when a truthy
room name is set (`if (currentRoom)` skips both `null` and the falsy empty
string). -/
inductive Ev where
  | create (c : ConnId) (room_name : String) (password : Option String)
  | join (c : ConnId) (room_name : String) (password : Option String)
  | signal (c : ConnId) (data : String) (target : Option Nat)
  | disconnect (c : ConnId)

/-- One step of the server: dispatch an event to its handler. -/
def stepFn (st : St) (e : Ev) : St × List Eff :=
  match e with
  | .create c rn pw => handleCreateRoom st c rn pw
  | .join c rn pw => handleJoinRoom st c rn pw
  | .signal c d t => handleSignal st c d t
  | .disconnect c =>
    match (st.sess c).room with
    | some rn =>
      if rn = "" then (st, [])
      else cleanupConnection st rn c (st.sess c).isHost (st.sess c).peerId
    | none => (st, [])

/-- States reachable from process start by any event sequence. -/
inductive Reachable : St → Prop where
  | init : Reachable initSt
  | step {st : St} : Reachable st → ∀ e : Ev, Reachable (stepFn st e).1

/-- Per-room invariant: `next_peer_id` at least 2, client peer ids pairwise
distinct, and every client peer id at least 2 and below `next_peer_id`. -/
def RoomInv (r : Room) : Prop :=
  2 ≤ r.next_peer_id ∧ (r.clients.map Prod.fst).Nodup ∧
    ∀ pid ∈ r.clients.map Prod.fst, 2 ≤ pid ∧ pid < r.next_peer_id

instance : DecidablePred RoomInv := fun r => by
  unfold RoomInv; infer_instance

/-- Global invariant: every room in the registry satisfies `RoomInv`. -/
def StInv (st : St) : Prop := ∀ p ∈ st.rooms, RoomInv p.2

theorem lookupA_eq_none {α β : Type} [DecidableEq α] {k : α} {l : List (α × β)} :
    lookupA k l = none ↔ k ∉ l.map Prod.fst := by
  induction l with
  | nil => simp [lookupA]
  | cons p rest ih =>
    obtain ⟨k', v⟩ := p
    by_cases h : k' = k
    · subst h
      simp [lookupA]
    · simp [lookupA, h, ih, Ne.symm h]

theorem lookupA_mem {α β : Type} [DecidableEq α] {k : α} {v : β} {l : List (α × β)}
    (h : lookupA k l = some v) : (k, v) ∈ l := by
  induction l with
  | nil => simp [lookupA] at h
  | cons p rest ih =>
    obtain ⟨k', v'⟩ := p
    rw [lookupA] at h
    split at h
    · next heq =>
      injection h with hv
      exact List.mem_cons.mpr (Or.inl (by rw [← heq, hv]))
    · exact List.mem_cons_of_mem _ (ih h)

theorem setA_fresh {α β : Type} [DecidableEq α] {k : α} (v : β) {l : List (α × β)}
    (h : lookupA k l = none) : setA k v l = l ++ [(k, v)] := by
  induction l with
  | nil => rfl
  | cons p rest ih =>
    obtain ⟨k', v'⟩ := p
    rw [setA]
    split
    · next heq => rw [lookupA, if_pos heq] at h; exact absurd h (by simp)
    · next hne => rw [lookupA, if_neg hne] at h; rw [ih h]; rfl

theorem lookupA_setA_self {α β : Type} [DecidableEq α] {k : α} {v : β}
    {l : List (α × β)} : lookupA k (setA k v l) = some v := by
  induction l with
  | nil => simp [setA, lookupA]
  | cons p rest ih =>
    obtain ⟨k', v'⟩ := p
    rw [setA]
    split
    · simp [lookupA]
    · next hne => rw [lookupA, if_neg hne]; exact ih

theorem lookupA_setA_ne {α β : Type} [DecidableEq α] {k k' : α} {v : β}
    {l : List (α × β)} (h : k' ≠ k) : lookupA k (setA k' v l) = lookupA k l := by
  induction l with
  | nil => simp [setA, lookupA, h]
  | cons p rest ih =>
    obtain ⟨k'', v'⟩ := p
    rw [setA]
    split
    · next heq => subst heq; rw [lookupA, if_neg h, lookupA, if_neg h]
    · rw [lookupA, lookupA]
      split
      · rfl
      · exact ih

theorem lookupA_delA_self {α β : Type} [DecidableEq α] {k : α}
    {l : List (α × β)} : lookupA k (delA k l) = none := by
  induction l with
  | nil => rfl
  | cons p rest ih =>
    obtain ⟨k', v⟩ := p
    rw [delA]
    split
    · exact ih
    · next h => rw [lookupA, if_neg h]; exact ih

theorem lookupA_delA_ne {α β : Type} [DecidableEq α] {k k' : α}
    {l : List (α × β)} (h : k' ≠ k) : lookupA k (delA k' l) = lookupA k l := by
  induction l with
  | nil => rfl
  | cons p rest ih =>
    obtain ⟨k'', v⟩ := p
    rw [delA]
    split
    · next heq => subst heq; rw [lookupA, if_neg h]; exact ih
    · rw [lookupA, lookupA]
      split
      · rfl
      · exact ih

theorem delA_sublist {α β : Type} [DecidableEq α] (k : α) (l : List (α × β)) :
    List.Sublist (delA k l) l := by
  induction l with
  | nil => exact List.Sublist.refl _
  | cons p rest ih =>
    obtain ⟨k', v⟩ := p
    rw [delA]
    split
    · exact ih.cons _
    · exact ih.cons₂ _

theorem mem_delA {α β : Type} [DecidableEq α] {k : α} {l : List (α × β)}
    {p : α × β} (h : p ∈ delA k l) : p ∈ l :=
  (delA_sublist k l).mem h

theorem setA_lookup_eq {α β : Type} [DecidableEq α] {k : α} {v : β}
    {l : List (α × β)} (h : lookupA k l = some v) : setA k v l = l := by
  induction l with
  | nil => exact absurd h (by simp [lookupA])
  | cons p rest ih =>
    obtain ⟨k', v'⟩ := p
    rw [lookupA] at h
    rw [setA]
    split
    · next heq =>
      rw [if_pos heq] at h
      injection h with h
      rw [heq, h]
    · next hne =>
      rw [if_neg hne] at h
      rw [ih h]

theorem mem_setA {α β : Type} [DecidableEq α] {k : α} {v : β} {l : List (α × β)}
    {p : α × β} (h : p ∈ setA k v l) : p = (k, v) ∨ p ∈ l := by
  induction l with
  | nil => simpa [setA] using h
  | cons q rest ih =>
    obtain ⟨k', v'⟩ := q
    rw [setA] at h
    split at h
    · rcases List.mem_cons.mp h with h | h
      · exact Or.inl h
      · exact Or.inr (List.mem_cons_of_mem _ h)
    · rcases List.mem_cons.mp h with h | h
      · exact Or.inr (List.mem_cons.mpr (Or.inl h))
      · rcases ih h with h | h
        · exact Or.inl h
        · exact Or.inr (List.mem_cons_of_mem _ h)

theorem roomInv_fresh_id {room : Room} (h : RoomInv room) :
    lookupA room.next_peer_id room.clients = none := by
  rw [lookupA_eq_none]
  intro hmem
  exact absurd (h.2.2 _ hmem).2 (lt_irrefl _)

/-- The room produced by a successful join keeps the invariant. -/
theorem roomInv_join {room : Room} (h : RoomInv room) (c : ConnId) :
    RoomInv { room with
      clients := setA room.next_peer_id c room.clients,
      next_peer_id := room.next_peer_id + 1 } := by
  obtain ⟨h2, hnd, hbound⟩ := h
  rw [RoomInv]
  dsimp only
  rw [setA_fresh c (roomInv_fresh_id ⟨h2, hnd, hbound⟩)]
  simp only [List.map_append, List.map_cons, List.map_nil]
  refine ⟨Nat.le_succ_of_le h2, ?_, ?_⟩
  · rw [List.nodup_append]
    refine ⟨hnd, List.nodup_singleton _, ?_⟩
    intro x hx hx'
    rw [List.mem_singleton] at hx'
    subst hx'
    exact absurd (hbound _ hx).2 (lt_irrefl _)
  · intro pid hpid
    rcases List.mem_append.mp hpid with hh | hh
    · exact ⟨(hbound pid hh).1, Nat.lt_succ_of_lt (hbound pid hh).2⟩
    · rw [List.mem_singleton] at hh
      subst hh
      exact ⟨h2, Nat.lt_succ_self _⟩

theorem stInv_create (st : St) (c : ConnId) (rn : String) (pw : Option String)
    (h : StInv st) : StInv (handleCreateRoom st c rn pw).1 := by
  rw [handleCreateRoom]
  split
  · exact h
  · intro p hp
    rcases List.mem_cons.mp hp with rfl | hp
    · exact ⟨le_refl 2, List.nodup_nil, by simp⟩
    · exact h p hp

theorem stInv_join (st : St) (c : ConnId) (rn : String) (pw : Option String)
    (h : StInv st) : StInv (handleJoinRoom st c rn pw).1 := by
  rw [handleJoinRoom]
  cases hlook : lookupA rn st.rooms with
  | none => exact h
  | some room =>
    dsimp only
    split
    · exact h
    · split
      · exact h
      · intro p hp
        rcases mem_setA hp with rfl | hp
        · exact roomInv_join (h (rn, room) (lookupA_mem hlook)) c
        · exact h p hp

theorem handleSignal_fst (st : St) (c : ConnId) (d : String) (t : Option Nat) :
    (handleSignal st c d t).1 = st := by
  rw [handleSignal]
  cases (st.sess c).room with
  | none => rfl
  | some rn =>
    dsimp only
    split
    · rfl
    · cases lookupA rn st.rooms with
      | none => rfl
      | some room =>
        dsimp only
        split
        · cases t with
          | none => rfl
          | some tp =>
            dsimp only
            split
            · rfl
            · cases lookupA tp room.clients <;> rfl
        · rfl

theorem stInv_cleanup (st : St) (rn : String) (c : ConnId) (hflag : Bool)
    (pid : Nat) (h : StInv st) : StInv (cleanupConnection st rn c hflag pid).1 := by
  rw [cleanupConnection]
  cases hlook : lookupA rn st.rooms with
  | none => exact h
  | some room =>
    dsimp only
    split
    · intro p hp
      exact h p (mem_delA hp)
    · intro p hp
      rcases mem_setA hp with rfl | hp
      · obtain ⟨h2, hnd, hbound⟩ := h (rn, room) (lookupA_mem hlook)
        refine ⟨h2, ?_, ?_⟩
        · exact hnd.sublist ((delA_sublist pid room.clients).map Prod.fst)
        · intro pid' hp'
          exact hbound pid' (((delA_sublist pid room.clients).map Prod.fst).mem hp')
      · exact h p hp

theorem stInv_step (st : St) (e : Ev) (h : StInv st) : StInv (stepFn st e).1 := by
  cases e with
  | create c rn pw => exact stInv_create st c rn pw h
  | join c rn pw => exact stInv_join st c rn pw h
  | signal c d t =>
    show StInv (handleSignal st c d t).1
    rw [handleSignal_fst]
    exact h
  | disconnect c =>
    rw [stepFn]
    cases (st.sess c).room with
    | none => exact h
    | some rn =>
      dsimp only
      split
      · exact h
      · exact stInv_cleanup st rn c (st.sess c).isHost (st.sess c).peerId h

theorem reachable_inv {st : St} (h : Reachable st) : StInv st := by
  induction h with
  | init => intro p hp; exact absurd hp (List.not_mem_nil p)
  | step _ e ih => exact stInv_step _ e ih

/-- Across any single event, a room that exists before and after the event
never sees its `next_peer_id` decrease. -/
theorem next_mono (st : St) (e : Ev) (rn : String) (r r' : Room)
    (h1 : lookupA rn st.rooms = some r)
    (h2 : lookupA rn (stepFn st e).1.rooms = some r') :
    r.next_peer_id ≤ r'.next_peer_id := by
  cases e with
  | create c rn' pw =>
    rw [stepFn, handleCreateRoom] at h2
    split at h2
    · rw [h1] at h2
      injection h2 with h2
      subst h2
      exact le_refl _
    · next hguard =>
      dsimp only at h2
      rw [lookupA] at h2
      split at h2
      · next heq =>
        subst heq
        exact absurd (by rw [h1]; rfl) hguard
      · rw [h1] at h2
        injection h2 with h2
        subst h2
        exact le_refl _
  | join c rn' pw =>
    rw [stepFn, handleJoinRoom] at h2
    cases hl : lookupA rn' st.rooms with
    | none =>
      rw [hl] at h2
      dsimp only at h2
      rw [h1] at h2
      injection h2 with h2
      subst h2
      exact le_refl _
    | some room =>
      rw [hl] at h2
      dsimp only at h2
      split at h2
      · rw [h1] at h2
        injection h2 with h2
        subst h2
        exact le_refl _
      · split at h2
        · rw [h1] at h2
          injection h2 with h2
          subst h2
          exact le_refl _
        · by_cases hrr : rn' = rn
          · subst hrr
            rw [lookupA_setA_self] at h2
            injection h2 with h2
            rw [h1] at hl
            injection hl with hl
            subst hl
            rw [← h2]
            exact Nat.le_succ _
          · rw [lookupA_setA_ne hrr] at h2
            rw [h1] at h2
            injection h2 with h2
            subst h2
            exact le_refl _
  | signal c d t =>
    show r.next_peer_id ≤ r'.next_peer_id
    have hfst : (handleSignal st c d t).1 = st := handleSignal_fst st c d t
    rw [stepFn] at h2
    rw [hfst, h1] at h2
    injection h2 with h2
    subst h2
    exact le_refl _
  | disconnect c =>
    rw [stepFn] at h2
    cases hs : (st.sess c).room with
    | none =>
      rw [hs] at h2
      dsimp only at h2
      rw [h1] at h2
      injection h2 with h2
      subst h2
      exact le_refl _
    | some rn' =>
      rw [hs] at h2
      dsimp only at h2
      split at h2
      · rw [h1] at h2
        injection h2 with h2
        subst h2
        exact le_refl _
      · rw [cleanupConnection] at h2
        cases hl : lookupA rn' st.rooms with
        | none =>
          rw [hl] at h2
          dsimp only at h2
          rw [h1] at h2
          injection h2 with h2
          subst h2
          exact le_refl _
        | some room =>
          rw [hl] at h2
          dsimp only at h2
          split at h2
          · by_cases hrr : rn' = rn
            · subst hrr
              rw [lookupA_delA_self] at h2
              exact absurd h2 (by simp)
            · rw [lookupA_delA_ne hrr, h1] at h2
              injection h2 with h2
              subst h2
              exact le_refl _
          · by_cases hrr : rn' = rn
            · subst hrr
              rw [lookupA_setA_self] at h2
              injection h2 with h2
              rw [h1] at hl
              injection hl with hl
              subst hl
              rw [← h2]
            · rw [lookupA_setA_ne hrr, h1] at h2
              injection h2 with h2
              subst h2
              exact le_refl _

/-- State after a host on connection 0 creates room `"r"` with no password. -/
def hostSt : St := (stepFn initSt (.create 0 "r" none)).1

/-- State after, additionally, connection 1 joins room `"r"` (peer id 2). -/
def pairSt : St := (stepFn hostSt (.join 1 "r" none)).1

theorem hostSt_reachable : Reachable hostSt :=
  Reachable.step Reachable.init (.create 0 "r" none)

theorem pairSt_reachable : Reachable pairSt :=
  Reachable.step hostSt_reachable (.join 1 "r" none)

/-- State after connection 0 creates room `"r"` with password `"pw"` and
connections 1 to 4 join it: the room is at capacity (4 clients). -/
def fullSt : St :=
  (stepFn (stepFn (stepFn (stepFn (stepFn initSt
    (.create 0 "r" (some "pw"))).1
    (.join 1 "r" (some "pw"))).1
    (.join 2 "r" (some "pw"))).1
    (.join 3 "r" (some "pw"))).1
    (.join 4 "r" (some "pw"))).1

theorem handleJoinRoom_not_found (st : St) (c : ConnId) (rn : String)
    (pw : Option String) (h : lookupA rn st.rooms = none) :
    handleJoinRoom st c rn pw = (st, [.send c (.error "Room not found")]) := by
  rw [handleJoinRoom, h]

theorem handleCreateRoom_fresh (st : St) (c : ConnId) (rn : String)
    (pw : Option String) (h : lookupA rn st.rooms = none) :
    handleCreateRoom st c rn pw =
      ({ rooms := (rn, ⟨c, [], jsOrNull pw, 2⟩) :: st.rooms,
         sess := updSess st.sess c ⟨some rn, true, 1⟩ },
       [.send c (.room_created rn 1)]) := by
  rw [handleCreateRoom, h]
  rfl

theorem delA_not_mem {α β : Type} [DecidableEq α] {k : α} {l : List (α × β)}
    (h : lookupA k l = none) : delA k l = l := by
  induction l with
  | nil => rfl
  | cons p rest ih =>
    obtain ⟨k', v⟩ := p
    rw [lookupA] at h
    rw [delA]
    split
    · next heq => rw [if_pos heq] at h; exact absurd h (by simp)
    · next hne => rw [if_neg hne] at h; rw [ih h]

theorem filterMap_congr_map {α β : Type} (f : α → Option β) (g : α → β)
    (l : List α) (h : ∀ a ∈ l, f a = some (g a)) : l.filterMap f = l.map g := by
  induction l with
  | nil => rfl
  | cons a rest ih =>
    rw [List.filterMap_cons, h a (List.mem_cons_self a rest), List.map_cons,
      ih fun a ha => h a (List.mem_cons_of_mem _ ha)]

/-- C9: a `create_room` request for a name already in the registry is
answered with the `RoomExists` error envelope and the state — the existing
room, the registry and all session fields — is returned untouched. -/
theorem handleCreateRoom_room_exists (st : St) (c : ConnId) (rn : String)
    (pw : Option String) (h : (lookupA rn st.rooms).isSome = true) :
    handleCreateRoom st c rn pw = (st, [.send c (.error "Room already exists")]) := by
  rw [handleCreateRoom, if_pos h]

theorem handleCreateRoom_room_exists_witness :
    handleCreateRoom hostSt 5 "r" (some "other") =
      (hostSt, [.send 5 (.error "Room already exists")]) :=
  handleCreateRoom_room_exists hostSt 5 "r" (some "other") (by decide)

/-- C8: a `join_room` request to a room with a non-empty password, carrying
an absent or different password, is answered with the `WrongPassword` error
envelope and the state is returned untouched: no peer id allocated,
`next_peer_id` not incremented, clients and session fields unmodified. -/
theorem handleJoinRoom_wrong_password (st : St) (c : ConnId) (rn : String)
    (pw : Option String) (room : Room) (p : String)
    (hlook : lookupA rn st.rooms = some room)
    (hp : room.password = some p) (hne : p ≠ "") (hmismatch : pw ≠ some p) :
    handleJoinRoom st c rn pw = (st, [.send c (.error "Wrong password")]) := by
  have hfail : pwCheckFails room.password pw = true := by
    rw [hp, pwCheckFails]
    simp [hne, hmismatch]
  rw [handleJoinRoom, hlook]
  dsimp only
  rw [if_pos hfail]

theorem handleJoinRoom_wrong_password_witness :
    handleJoinRoom fullSt 9 "r" (some "wrong") =
      (fullSt, [.send 9 (.error "Wrong password")]) :=
  handleJoinRoom_wrong_password fullSt 9 "r" (some "wrong")
    ⟨0, [(2, 1), (3, 2), (4, 3), (5, 4)], some "pw", 6⟩ "pw"
    (by decide) (by decide) (by decide) (by decide)

/-- C7 counterexample: a join request to a full room does not always get the
`RoomFull` envelope — the password check runs first, so a full passworded
room answers a wrong-password join with `WrongPassword`, never `RoomFull`. -/
theorem full_room_wrong_password_first :
    (handleJoinRoom fullSt 9 "r" (some "wrong")).2 =
      [.send 9 (.error "Wrong password")] ∧
    Eff.send 9 (.error "Room is full (max 5 players)") ∉
      (handleJoinRoom fullSt 9 "r" (some "wrong")).2 := by
  decide

/-- C7 (amended): a `join_room` request to an existing room whose clients
map already has 4 entries, and which passes the password check, is answered
with the `RoomFull` error envelope and the state is returned untouched. -/
theorem handleJoinRoom_room_full (st : St) (c : ConnId) (rn : String)
    (pw : Option String) (room : Room)
    (hlook : lookupA rn st.rooms = some room)
    (hpw : pwCheckFails room.password pw = false)
    (hcap : room.clients.length = 4) :
    handleJoinRoom st c rn pw = (st, [.send c (.error "Room is full (max 5 players)")]) := by
  rw [handleJoinRoom, hlook]
  dsimp only
  rw [if_neg (by rw [hpw]; exact Bool.false_ne_true), if_pos (by rw [hcap])]

theorem handleJoinRoom_room_full_witness :
    handleJoinRoom fullSt 9 "r" (some "pw") =
      (fullSt, [.send 9 (.error "Room is full (max 5 players)")]) :=
  handleJoinRoom_room_full fullSt 9 "r" (some "pw")
    ⟨0, [(2, 1), (3, 2), (4, 3), (5, 4)], some "pw", 6⟩
    (by decide) (by decide) (by decide)

/-- C5: when the host of an existing room disconnects, every current client
is sent `host_disconnected` and has its transport closed, the room is
removed from the registry, and a subsequent join to the same name gets the
`RoomNotFound` error. -/
theorem cleanup_host_closes_room (st : St) (rn : String) (c : ConnId)
    (pid : Nat) (room : Room) (hlook : lookupA rn st.rooms = some room) :
    (cleanupConnection st rn c true pid).2 =
      room.clients.flatMap (fun p => [.send p.2 .host_disconnected, .close p.2]) ∧
    lookupA rn (cleanupConnection st rn c true pid).1.rooms = none ∧
    ∀ c' pw, handleJoinRoom (cleanupConnection st rn c true pid).1 c' rn pw =
      ((cleanupConnection st rn c true pid).1,
       [.send c' (.error "Room not found")]) := by
  rw [cleanupConnection, hlook]
  dsimp only
  rw [if_pos rfl]
  refine ⟨rfl, lookupA_delA_self, ?_⟩
  intro c' pw
  exact handleJoinRoom_not_found _ c' rn pw lookupA_delA_self

theorem cleanup_host_closes_room_witness :
    (cleanupConnection pairSt "r" 0 true 1).2 =
      ([(2, 1)] : List (Nat × ConnId)).flatMap
        (fun p => [.send p.2 .host_disconnected, .close p.2]) ∧
    lookupA "r" (cleanupConnection pairSt "r" 0 true 1).1.rooms = none ∧
    ∀ c' pw, handleJoinRoom (cleanupConnection pairSt "r" 0 true 1).1 c' "r" pw =
      ((cleanupConnection pairSt "r" 0 true 1).1,
       [.send c' (.error "Room not found")]) :=
  cleanup_host_closes_room pairSt "r" 0 1 ⟨0, [(2, 1)], none, 3⟩ (by decide)

/-- C1: a join that passes the existence, password and capacity checks
assigns the joiner `peer_id = next_peer_id`, increments `next_peer_id`,
appends `(peer_id, connection)` to the clients map, and sends the joiner a
`room_joined` envelope whose `existing_peers` list is exactly the client
peer ids present before the join — never containing the host id 1 nor the
joiner's own new peer id. -/
theorem join_assigns_and_reports (st : St) (c : ConnId) (rn : String)
    (pw : Option String) (room : Room) (hreach : Reachable st)
    (hlook : lookupA rn st.rooms = some room)
    (hpw : pwCheckFails room.password pw = false)
    (hcap : room.clients.length < 4) :
    (handleJoinRoom st c rn pw).1.sess c = ⟨some rn, false, room.next_peer_id⟩ ∧
    lookupA rn (handleJoinRoom st c rn pw).1.rooms =
      some { host := room.host, clients := room.clients ++ [(room.next_peer_id, c)],
             password := room.password, next_peer_id := room.next_peer_id + 1 } ∧
    (handleJoinRoom st c rn pw).2 =
      .send c (.room_joined rn room.next_peer_id (room.clients.map Prod.fst)) ::
      .send room.host (.peer_joined room.next_peer_id) ::
      room.clients.map (fun p => .send p.2 (.peer_joined room.next_peer_id)) ∧
    1 ∉ room.clients.map Prod.fst ∧
    room.next_peer_id ∉ room.clients.map Prod.fst := by
  obtain ⟨h2, hnd, hbound⟩ := reachable_inv hreach (rn, room) (lookupA_mem hlook)
  have hfreshpid : lookupA room.next_peer_id room.clients = none :=
    roomInv_fresh_id ⟨h2, hnd, hbound⟩
  have hnotmem : room.next_peer_id ∉ room.clients.map Prod.fst :=
    lookupA_eq_none.mp hfreshpid
  have hset : setA room.next_peer_id c room.clients =
      room.clients ++ [(room.next_peer_id, c)] := setA_fresh c hfreshpid
  rw [handleJoinRoom, hlook]
  dsimp only
  rw [if_neg (by rw [hpw]; exact Bool.false_ne_true), if_neg (Nat.not_le.mpr hcap)]
  dsimp only
  refine ⟨?_, ?_, ?_, ?_, hnotmem⟩
  · show updSess st.sess c ⟨some rn, false, room.next_peer_id⟩ c = _
    rw [updSess, if_pos rfl]
  · rw [lookupA_setA_self, hset]
  · have hexist : ((room.clients ++ [(room.next_peer_id, c)]).map Prod.fst).filter
        (fun id => decide (id ≠ room.next_peer_id)) = room.clients.map Prod.fst := by
      rw [List.map_append, List.filter_append]
      have h1 : (room.clients.map Prod.fst).filter
          (fun id => decide (id ≠ room.next_peer_id)) = room.clients.map Prod.fst :=
        List.filter_eq_self.mpr (fun a ha => by
          simp only [decide_eq_true_eq]
          intro heq
          exact hnotmem (heq ▸ ha))
      rw [h1]
      simp
    have hmap : (room.clients ++ [(room.next_peer_id, c)]).filterMap (fun p =>
        if p.1 ≠ room.next_peer_id then
          some (Eff.send p.2 (.peer_joined room.next_peer_id)) else none) =
        room.clients.map (fun p => Eff.send p.2 (.peer_joined room.next_peer_id)) := by
      rw [List.filterMap_append,
        filterMap_congr_map _ (fun p => Eff.send p.2 (.peer_joined room.next_peer_id))
          room.clients (fun p hp => by
            rw [if_pos]
            intro heq
            exact hnotmem (heq ▸ List.mem_map_of_mem Prod.fst hp))]
      simp
    rw [hset, hexist, hmap]
  · intro hmem
    exact absurd (hbound 1 hmem).1 (by omega)

theorem join_assigns_and_reports_witness :
    (handleJoinRoom hostSt 1 "r" none).1.sess 1 = ⟨some "r", false, 2⟩ ∧
    lookupA "r" (handleJoinRoom hostSt 1 "r" none).1.rooms =
      some { host := 0, clients := [(2, 1)], password := none, next_peer_id := 3 } ∧
    (handleJoinRoom hostSt 1 "r" none).2 =
      [.send 1 (.room_joined "r" 2 []), .send 0 (.peer_joined 2)] ∧
    1 ∉ ([] : List Nat) ∧
    2 ∉ ([] : List Nat) :=
  join_assigns_and_reports hostSt 1 "r" none ⟨0, [], none, 2⟩ hostSt_reachable
    (by decide) (by decide) (by decide)

/-- State after connection 0 creates a room whose name is the empty string
and connection 1 joins it (peer id 2): the room exists in the registry, but
the falsy name makes every signal from its members be dropped. -/
def emptyNameSt : St := (stepFn (stepFn initSt (.create 0 "" none)).1 (.join 1 "" none)).1

/-- C3 counterexample: a room named `""` is creatable and joinable, so a
client can sit in a room that exists in the registry; yet its signal is
dropped — `!room_name` treats the empty name as falsy — instead of being
delivered to the host as the claim requires. -/
theorem signal_empty_room_name_dropped :
    (emptyNameSt.sess 1).room = some "" ∧
    (lookupA "" emptyNameSt.rooms).isSome = true ∧
    (emptyNameSt.sess 1).isHost = false ∧
    (handleSignal emptyNameSt 1 "offer" none).2 = [] := by
  decide

/-- C3 (amended): signal routing for a connection whose current room name
is non-empty and whose room exists — a client's signal goes to the host
only, carrying the sender's peer id; the host's signal with a valid
positive `target_peer_id` goes to exactly that client with `from_peer_id`
1; with a `target_peer_id` naming no current client nothing is sent; with
no `target_peer_id` it is broadcast to every current client; in all cases
the state is unchanged.  (For a room named `""` the guard at the top of
`handleSignal` drops the signal instead.) -/
theorem handleSignal_routing (st : St) (c : ConnId) (d : String) (t : Option Nat)
    (rn : String) (room : Room)
    (hs : (st.sess c).room = some rn) (hne : rn ≠ "")
    (hlook : lookupA rn st.rooms = some room) :
    (handleSignal st c d t).1 = st ∧
    ((st.sess c).isHost = false →
      (handleSignal st c d t).2 = [.send room.host (.signal d (st.sess c).peerId)]) ∧
    (∀ tp cw, (st.sess c).isHost = true → t = some tp → 0 < tp →
      lookupA tp room.clients = some cw →
      (handleSignal st c d t).2 = [.send cw (.signal d 1)]) ∧
    (∀ tp, (st.sess c).isHost = true → t = some tp → 0 < tp →
      lookupA tp room.clients = none → (handleSignal st c d t).2 = []) ∧
    ((st.sess c).isHost = true → t = none →
      (handleSignal st c d t).2 = room.clients.map (fun p => .send p.2 (.signal d 1))) := by
  refine ⟨handleSignal_fst st c d t, ?_, ?_, ?_, ?_⟩
  · intro hh
    rw [handleSignal, hs]
    dsimp only
    rw [if_neg hne]
    try dsimp only
    rw [hlook]
    dsimp only
    rw [if_neg (by rw [hh]; exact Bool.false_ne_true)]
  · intro tp cw hh ht htp hcw
    subst ht
    rw [handleSignal, hs]
    dsimp only
    rw [if_neg hne]
    try dsimp only
    rw [hlook]
    dsimp only
    rw [if_pos hh]
    try dsimp only
    rw [if_neg (Nat.pos_iff_ne_zero.mp htp), hcw]
  · intro tp hh ht htp hnone
    subst ht
    rw [handleSignal, hs]
    dsimp only
    rw [if_neg hne]
    try dsimp only
    rw [hlook]
    dsimp only
    rw [if_pos hh]
    try dsimp only
    rw [if_neg (Nat.pos_iff_ne_zero.mp htp), hnone]
  · intro hh ht
    subst ht
    rw [handleSignal, hs]
    dsimp only
    rw [if_neg hne]
    try dsimp only
    rw [hlook]
    dsimp only
    rw [if_pos hh]

theorem handleSignal_routing_witness :
    (handleSignal pairSt 1 "offer" none).2 = [.send 0 (.signal "offer" 2)] ∧
    (handleSignal pairSt 0 "answer" (some 2)).2 = [.send 1 (.signal "answer" 1)] ∧
    (handleSignal pairSt 0 "answer" (some 3)).2 = [] ∧
    (handleSignal pairSt 0 "answer" none).2 = [.send 1 (.signal "answer" 1)] :=
  ⟨(handleSignal_routing pairSt 1 "offer" none "r" ⟨0, [(2, 1)], none, 3⟩
      (by decide) (by decide) (by decide)).2.1 rfl,
   (handleSignal_routing pairSt 0 "answer" (some 2) "r" ⟨0, [(2, 1)], none, 3⟩
      (by decide) (by decide) (by decide)).2.2.1 2 1 rfl rfl (by decide) (by decide),
   (handleSignal_routing pairSt 0 "answer" (some 3) "r" ⟨0, [(2, 1)], none, 3⟩
      (by decide) (by decide) (by decide)).2.2.2.1 3 rfl rfl (by decide) (by decide),
   (handleSignal_routing pairSt 0 "answer" none "r" ⟨0, [(2, 1)], none, 3⟩
      (by decide) (by decide) (by decide)).2.2.2.2 rfl rfl⟩

/-- C4: in every reachable state all client peer ids are pairwise distinct,
at least 2 and strictly below the owning room's `next_peer_id`; across any
event a surviving room's `next_peer_id` never decreases; and a freshly
created room starts with `next_peer_id = 2` — so peer ids are never reused
within one room's lifetime. -/
theorem room_invariants (st : St) (hreach : Reachable st) :
    StInv st ∧
    (∀ e rn r r', lookupA rn st.rooms = some r →
      lookupA rn (stepFn st e).1.rooms = some r' →
      r.next_peer_id ≤ r'.next_peer_id) ∧
    (∀ c rn pw, lookupA rn st.rooms = none →
      lookupA rn (handleCreateRoom st c rn pw).1.rooms =
        some ⟨c, [], jsOrNull pw, 2⟩) :=
  ⟨reachable_inv hreach,
   fun e rn r r' h1 h2 => next_mono st e rn r r' h1 h2,
   fun c rn pw h => by
     rw [handleCreateRoom_fresh st c rn pw h]
     dsimp only
     rw [lookupA, if_pos rfl]⟩

theorem room_invariants_witness :
    StInv pairSt ∧
    (∀ e rn r r', lookupA rn pairSt.rooms = some r →
      lookupA rn (stepFn pairSt e).1.rooms = some r' →
      r.next_peer_id ≤ r'.next_peer_id) ∧
    (∀ c rn pw, lookupA rn pairSt.rooms = none →
      lookupA rn (handleCreateRoom pairSt c rn pw).1.rooms =
        some ⟨c, [], jsOrNull pw, 2⟩) :=
  room_invariants pairSt pairSt_reachable

/-- C2 counterexample: cleanup is not idempotent in the client branch —
after client 2 of room `"r"` has already been cleaned up, a second
`cleanupConnection` call with the same arguments emits a `peer_left`
envelope to the host again instead of emitting nothing. -/
theorem cleanup_second_call_notifies_again :
    (cleanupConnection (cleanupConnection pairSt "r" 1 false 2).1 "r" 1 false 2).2 =
      [.send 0 (.peer_left 2)] ∧
    (cleanupConnection (cleanupConnection pairSt "r" 1 false 2).1 "r" 1 false 2).2 ≠ [] := by
  decide

/-- C2 (amended): a second cleanup for the same connection leaves the state
unchanged and does not error; after a host cleanup the room is gone so the
second call emits nothing, but in the client branch the second call
re-sends `peer_left` to the host and to every remaining client. -/
theorem cleanup_second_call (st : St) (rn : String) (c : ConnId) (pid : Nat) :
    (lookupA rn st.rooms = none →
      ∀ hflag : Bool, cleanupConnection st rn c hflag pid = (st, [])) ∧
    (∀ room, lookupA rn st.rooms = some room → lookupA pid room.clients = none →
      (cleanupConnection st rn c false pid).1 = st ∧
      (cleanupConnection st rn c false pid).2 =
        .send room.host (.peer_left pid) ::
        room.clients.map (fun p => .send p.2 (.peer_left pid))) := by
  constructor
  · intro h hflag
    rw [cleanupConnection, h]
  · intro room hlook hnot
    rw [cleanupConnection, hlook]
    dsimp only
    rw [if_neg Bool.false_ne_true]
    dsimp only
    rw [delA_not_mem hnot]
    refine ⟨?_, rfl⟩
    have h1 : setA rn { room with clients := room.clients } st.rooms = st.rooms :=
      setA_lookup_eq hlook
    rw [h1]

theorem cleanup_second_call_witness :
    cleanupConnection initSt "nope" 9 true 3 = (initSt, []) ∧
    ((cleanupConnection
        (cleanupConnection pairSt "r" 1 false 2).1 "r" 1 false 2).1 =
      (cleanupConnection pairSt "r" 1 false 2).1 ∧
     (cleanupConnection (cleanupConnection pairSt "r" 1 false 2).1 "r" 1 false 2).2 =
      [.send 0 (.peer_left 2)]) :=
  ⟨(cleanup_second_call initSt "nope" 9 3).1 rfl true,
   (cleanup_second_call (cleanupConnection pairSt "r" 1 false 2).1 "r" 1 2).2
     ⟨0, [], none, 3⟩ (by decide) (by decide)⟩

/-- C6 counterexample: a connection that already hosts room `"r"` succeeds
in creating a second room `"b"` — the request is not rejected, the registry
gains the new room, and the connection's session is overwritten. -/
theorem create_while_in_room_succeeds :
    (hostSt.sess 0).room = some "r" ∧
    (handleCreateRoom hostSt 0 "b" none).2 = [.send 0 (.room_created "b" 1)] ∧
    lookupA "b" (handleCreateRoom hostSt 0 "b" none).1.rooms = some ⟨0, [], none, 2⟩ ∧
    ((handleCreateRoom hostSt 0 "b" none).1.sess 0).room = some "b" := by
  decide

/-- C6 (amended): `handleCreateRoom` and `handleJoinRoom` never consult the
connection's current-room session field — a connection that already has a
room set is handled exactly like a fresh one, so whenever the name,
password and capacity checks pass its create or join succeeds, mutating the
registry and overwriting its session fields. -/
theorem handlers_ignore_current_room (st : St) (c : ConnId) (rn : String)
    (pw : Option String) (r₀ : String) (hset : (st.sess c).room = some r₀) :
    (lookupA rn st.rooms = none →
      (handleCreateRoom st c rn pw).2 = [.send c (.room_created rn 1)] ∧
      lookupA rn (handleCreateRoom st c rn pw).1.rooms =
        some ⟨c, [], jsOrNull pw, 2⟩ ∧
      (handleCreateRoom st c rn pw).1.sess c = ⟨some rn, true, 1⟩) ∧
    (∀ room, lookupA rn st.rooms = some room →
      pwCheckFails room.password pw = false → room.clients.length < 4 →
      (handleJoinRoom st c rn pw).1.sess c = ⟨some rn, false, room.next_peer_id⟩ ∧
      lookupA rn (handleJoinRoom st c rn pw).1.rooms =
        some { room with
          clients := setA room.next_peer_id c room.clients,
          next_peer_id := room.next_peer_id + 1 }) := by
  constructor
  · intro h
    rw [handleCreateRoom_fresh st c rn pw h]
    refine ⟨rfl, ?_, ?_⟩
    · dsimp only
      rw [lookupA, if_pos rfl]
    · show updSess st.sess c ⟨some rn, true, 1⟩ c = _
      rw [updSess, if_pos rfl]
  · intro room hlook hpw hcap
    rw [handleJoinRoom, hlook]
    dsimp only
    rw [if_neg (by rw [hpw]; exact Bool.false_ne_true), if_neg (Nat.not_le.mpr hcap)]
    dsimp only
    refine ⟨?_, lookupA_setA_self⟩
    show updSess st.sess c ⟨some rn, false, room.next_peer_id⟩ c = _
    rw [updSess, if_pos rfl]

theorem handlers_ignore_current_room_witness :
    ((handleCreateRoom hostSt 0 "b" none).2 = [.send 0 (.room_created "b" 1)] ∧
     lookupA "b" (handleCreateRoom hostSt 0 "b" none).1.rooms =
       some ⟨0, [], none, 2⟩ ∧
     (handleCreateRoom hostSt 0 "b" none).1.sess 0 = ⟨some "b", true, 1⟩) ∧
    ((handleJoinRoom hostSt 0 "r" none).1.sess 0 = ⟨some "r", false, 2⟩ ∧
     lookupA "r" (handleJoinRoom hostSt 0 "r" none).1.rooms =
       some ⟨0, [(2, 0)], none, 3⟩) := by
  have hc := (handlers_ignore_current_room hostSt 0 "b" none "r" (by decide)).1 (by decide)
  have hj := (handlers_ignore_current_room hostSt 0 "r" none "r" (by decide)).2
    ⟨0, [], none, 2⟩ (by decide) rfl (by decide)
  exact ⟨hc, hj⟩

/-- No `Wrong password` error envelope ever occurs among the `peer_joined`
notifications fanned out on a successful join. -/
theorem error_not_in_peer_joined_sends (c' : ConnId) (m : String) (pid : Nat)
    (l : List (Nat × ConnId)) :
    Eff.send c' (.error m) ∉ l.filterMap (fun p =>
      if p.1 ≠ pid then some (Eff.send p.2 (.peer_joined pid)) else none) := by
  intro h
  rw [List.mem_filterMap] at h
  obtain ⟨p, _, hpeq⟩ := h
  split at hpeq
  · exact absurd hpeq (by simp)
  · exact Option.noConfusion hpeq

/-- C10: a room created with an empty-string password stores `null` — the
empty string is falsy, so `password || null` collapses it — and joining a
room whose stored password is `null` never takes the `WrongPassword`
branch: the join outcome is identical whatever password is supplied. -/
theorem empty_password_open_room (st : St) (c : ConnId) (rn : String)
    (hfresh : lookupA rn st.rooms = none) :
    lookupA rn (handleCreateRoom st c rn (some "")).1.rooms =
      some ⟨c, [], none, 2⟩ ∧
    (∀ st' c' pw room, lookupA rn st'.rooms = some room → room.password = none →
      handleJoinRoom st' c' rn pw = handleJoinRoom st' c' rn none ∧
      Eff.send c' (.error "Wrong password") ∉ (handleJoinRoom st' c' rn pw).2) := by
  constructor
  · rw [handleCreateRoom_fresh st c rn (some "") hfresh]
    dsimp only
    rw [lookupA, if_pos rfl]
    rfl
  · intro st' c' pw room hlook hp
    have hpwF : ∀ q : Option String, pwCheckFails room.password q = false := by
      intro q
      rw [hp]
      rfl
    constructor
    · simp only [handleJoinRoom, hlook, hpwF, Bool.false_eq_true, if_false]
    · simp only [handleJoinRoom, hlook, hpwF, Bool.false_eq_true, if_false]
      split
      · intro hmem
        rw [List.mem_singleton] at hmem
        exact absurd hmem (by simp)
      · intro hmem
        rcases List.mem_cons.mp hmem with hmem | hmem
        · exact absurd hmem (by simp)
        · rcases List.mem_cons.mp hmem with hmem | hmem
          · exact absurd hmem (by simp)
          · exact error_not_in_peer_joined_sends c' "Wrong password"
              room.next_peer_id _ hmem

theorem empty_password_open_room_witness :
    lookupA "e" (handleCreateRoom initSt 0 "e" (some "")).1.rooms =
      some ⟨0, [], none, 2⟩ ∧
    (∀ st' c' pw room, lookupA "e" st'.rooms = some room → room.password = none →
      handleJoinRoom st' c' "e" pw = handleJoinRoom st' c' "e" none ∧
      Eff.send c' (.error "Wrong password") ∉ (handleJoinRoom st' c' "e" pw).2) :=
  empty_password_open_room initSt 0 "e" (by decide)

end TabletopSignaling
